import Mathlib

/-!
Shallow embedding of the core of `precious` (a code-quality orchestration
tool written in Rust) together with proofs about its orchestrator and
path-resolution logic.

The embedding follows `src/precious.rs` (the orchestrator) and
`precious-core/src/paths/mode.rs` (the `Mode` enum).  Paths are modelled
as strings, Rust `HashMap`s as association lists built with an insert
that replaces an existing binding, and the rayon thread pool as an
explicit completion order (a permutation of the invocation map).
-/

namespace Precious

/-- File-system paths, modelled as plain strings (Rust `PathBuf`). -/
abbrev FsPath := String

/-- `basepaths::Mode` from `precious-core/src/paths/mode.rs`. -/
inductive Mode where
  | FromCli
  | All
  | GitModified
  | GitStaged
  | GitStagedWithStash
deriving DecidableEq, Repr

/-- `basepaths::Paths`: one directory group of a resolution
(`{ dir, files }`), as used throughout `precious.rs`. -/
structure Paths where
  dir : FsPath
  files : List FsPath
deriving DecidableEq, Repr

/-- `filter::RunMode` (used by `Precious::path_map`). -/
inductive RunMode where
  | Root
  | Dirs
  | Files
deriving DecidableEq, Repr

/-- The part of `filter::Filter` the orchestrator consumes: its name, its
run mode and its config key.  (`filter.rs` itself is not part of the core
sources; `config_key()` is modelled as a stored string, and the
`tidy`/`lint` operations are passed to the orchestrator as functions.) -/
structure Filter where
  name : String
  config_key : String
  run_mode : RunMode
deriving DecidableEq, Repr

/-- `ActionError` from `precious.rs`: one per-path failure record. -/
structure ActionError where
  error : String
  config_key : String
  path : FsPath
deriving DecidableEq, Repr

/-- `Exit` from `precious.rs`.  `status` is the `i8` exit status. -/
structure Exit where
  status : Int
  message : Option String
  error : Option String
deriving DecidableEq, Repr

/-- `PreciousError` from `precious.rs`. -/
inductive PreciousError where
  | InvalidIntegerArgument (arg val : String)
  | CannotFindRoot (cwd : String)
  | NoFilters (what : String)
deriving DecidableEq, Repr

/-- `HashMap::insert` on an association-list model of
`HashMap<PathBuf, Paths>`: any existing binding of the key is replaced. -/
def hash_insert (m : List (FsPath × Paths)) (k : FsPath) (v : Paths) :
    List (FsPath × Paths) :=
  m.filter (fun kv => kv.1 ≠ k) ++ [(k, v)]

/-- `Precious::root_as_paths`: collapse every group's files into one
synthetic entry keyed `"."`.  The caller only reaches this function when
resolution returned `Some`, so the groups are passed directly. -/
def root_as_paths (groups : List Paths) : List (FsPath × Paths) :=
  let all := (groups.map Paths.files).flatten
  hash_insert [] "." { dir := ".", files := all }

/-- `Precious::dirs`: one entry per group, keyed by the group directory. -/
def dirs (groups : List Paths) : List (FsPath × Paths) :=
  groups.foldl (fun m p => hash_insert m p.dir p) []

/-- `Precious::files`: one entry per file, each keeping its whole group
as the value (sibling context). -/
def files (groups : List Paths) : List (FsPath × Paths) :=
  groups.foldl (fun m p => p.files.foldl (fun m' f => hash_insert m' f p) m) []

/-- `Precious::path_map`: dispatch on the filter's run mode. -/
def path_map (rm : RunMode) (groups : List Paths) : List (FsPath × Paths) :=
  match rm with
  | .Root => root_as_paths groups
  | .Dirs => dirs groups
  | .Files => files groups

/-- `Precious::no_files_exit`. -/
def no_files_exit : Exit :=
  { status := 0, message := some "No files found", error := none }

/-- One rendered line of the error report in `Precious::make_exit`
(the closure inside the `errors.iter().map(...)`).  `bullet` is
`self.chars.bullet`, which depends on the ASCII flag. -/
def error_line (bullet : String) (ae : ActionError) : String :=
  "  " ++ bullet ++ " " ++ ae.path ++ " [" ++ ae.config_key ++ "]\n    "
    ++ ae.error ++ "\n"

/-- Rust `Vec<String>::join("")`: plain concatenation. -/
def join_all (l : List String) : String :=
  l.foldl (fun a b => a ++ b) ""

/-- The leading part of the error report of `Precious::make_exit`
(`"{red}Error{plural} when {action} files:{ansi_off}\n"`). -/
def report_header (action plural : String) : String :=
  "\x1B[31m" ++ "Error" ++ plural ++ " when " ++ action ++ " files:"
    ++ "\x1B[0m" ++ "\n"

/-- `Precious::make_exit`: status 0 with no report when the error list is
empty, otherwise status 1 and a report line per collected error. -/
def make_exit (bullet : String) (errors : List ActionError) (action : String) :
    Exit :=
  if errors.isEmpty then
    { status := 0, message := none, error := none }
  else
    let plural := if errors.length > 1 then "s" else "\x00"
    let report :=
      report_header action plural ++ join_all (errors.map (error_line bullet))
    { status := 1, message := none, error := some report }

/-- The body of the `for f in filters` loop of
`Precious::run_all_filters`: run each filter in order, appending its
errors to the accumulator; a `Result` error from a filter run propagates
immediately (the `?` operator). -/
def collect_errors
    (run_filter : Filter → Except PreciousError (Option (List ActionError))) :
    List Filter → List ActionError →
    Except PreciousError (List ActionError)
  | [], acc => .ok acc
  | f :: rest, acc =>
    match run_filter f with
    | .error e => .error e
    | .ok none => collect_errors run_filter rest acc
    | .ok (some errs) => collect_errors run_filter rest (acc ++ errs)

/-- `Precious::run_all_filters`.  `resolution` is the memoized
`basepaths().paths()` result; `run_filter` is the per-filter runner
(`run_one_tidier` / `run_one_linter`). -/
def run_all_filters (bullet : String) (action : String)
    (filters : List Filter) (resolution : Option (List Paths))
    (run_filter : Filter → Except PreciousError (Option (List ActionError))) :
    Except PreciousError Exit :=
  if filters.isEmpty then
    .error (.NoFilters action)
  else
    match resolution with
    | none => .ok no_files_exit
    | some _ =>
      match collect_errors run_filter filters [] with
      | .error e => .error e
      | .ok all_errors => .ok (make_exit bullet all_errors action)

/-- The tail of `Precious::run`: an `Ok` exit yields its status, an `Err`
is logged and yields 1. -/
def run_status (r : Except PreciousError Exit) : Int :=
  match r with
  | .ok e => e.status
  | .error _ => 1

/-- `filter::LintResult` (`{ok, stdout, stderr}`), as consumed by
`Precious::run_one_linter`. -/
structure LintOutcome where
  ok : Bool
  stdout : Option String
  stderr : Option String
deriving DecidableEq, Repr

/-- The runner closure of `Precious::run_one_linter`: turn the outcome of
`Filter::lint` on one path into `Option ActionError`.  `lint` is the
filter's lint operation (`Ok none` = path not applicable, `Ok (some r)` =
tool ran, `Err` = execution error); console printing is dropped. -/
def linter_runner (l : Filter)
    (lint : FsPath → List FsPath → Except String (Option LintOutcome))
    (p : FsPath) (paths : Paths) : Option ActionError :=
  match lint p paths.files with
  | .ok (some r) =>
    if r.ok then
      none
    else
      some { error := "linting failed", config_key := l.config_key, path := p }
  | .ok none => none
  | .error e =>
    some { error := e, config_key := l.config_key, path := p }

/-- `Precious::run_parallel`, with the rayon pool's nondeterminism made
explicit: `schedule` is the order in which the entries of the invocation
map complete (any permutation of `path_map`).  The collected error list
is the runner's output over that order; `None` when empty. -/
def run_parallel_schedule (runner : FsPath → Paths → Option ActionError)
    (schedule : List (FsPath × Paths)) : Option (List ActionError) :=
  let e := schedule.filterMap (fun kv => runner kv.1 kv.2)
  if e.isEmpty then none else some e

/-- `Precious::run_parallel` with the invocation map consumed in its own
order (one worker, deterministic schedule). -/
def run_parallel (f : Filter) (groups : List Paths)
    (runner : FsPath → Paths → Option ActionError) :
    Option (List ActionError) :=
  run_parallel_schedule runner (path_map f.run_mode groups)

/-- `Precious::run_one_linter` (modulo console output): run the filter's
lint operation over its invocation map. -/
def run_one_linter (l : Filter) (groups : List Paths)
    (lint : FsPath → List FsPath → Except String (Option LintOutcome)) :
    Option (List ActionError) :=
  run_parallel l groups (linter_runner l lint)

/-- Modelled from the spec: `filter.rs` is not among the core sources.
§4.2 defines how `Filter::lint` maps the observed exit code: `ok = true`
iff it is in `ok_exit_codes`, `ok = false` iff it is in
`lint_failure_exit_codes`, any other exit code is an execution error. -/
def lint_from_exit_code (ok_exit_codes lint_failure_exit_codes : List Int)
    (code : Int) (stdout stderr : Option String) :
    Except String (Option LintOutcome) :=
  if code ∈ ok_exit_codes then
    .ok (some { ok := true, stdout := stdout, stderr := stderr })
  else if code ∈ lint_failure_exit_codes then
    .ok (some { ok := false, stdout := stdout, stderr := stderr })
  else
    .error "unexpected exit code"

/-- Modelled from the spec: `basepaths.rs` (the `PathResolver`) is not
among the core sources.  Repository state for the `GitStagedWithStash`
transaction of §4.1: the staged index and the unstaged working-tree
modifications, each a map from path to content. -/
structure RepoState where
  staged : List (FsPath × String)
  unstaged : List (FsPath × String)
deriving DecidableEq, Repr

/-- Modelled from the spec: step (a) of the `GitStagedWithStash`
transaction — stash all unstaged changes while preserving the index,
returning the new repository state and the stash. -/
def stash_unstaged (r : RepoState) : RepoState × List (FsPath × String) :=
  ({ staged := r.staged, unstaged := [] }, r.unstaged)

/-- Modelled from the spec: step (c) — pop the stash, restoring the
stashed unstaged modifications. -/
def pop_stash (r : RepoState) (stash : List (FsPath × String)) : RepoState :=
  { staged := r.staged, unstaged := stash }

/-- Modelled from the spec: the `GitStagedWithStash` resolution as the
(a)-(b)-(c) transaction of §4.1.  `diff` is step (b), the staged-diff
computation, which may fail; the stash pop of step (c) runs on every
exit path of (b), and a failure in (b) is reported only after (c). -/
def resolve_staged_with_stash
    (diff : RepoState → Except String (Option (List Paths)))
    (r : RepoState) : Except String (Option (List Paths)) × RepoState :=
  let step_a := stash_unstaged r
  let res := diff step_a.1
  let step_c := pop_stash step_a.1 step_a.2
  (res, step_c)

/-- The loop of `Precious::set_root` over `self.cwd.ancestors()`: the
first ancestor that is a checkout root (Rust's `ancestors()` yields the
path itself first). -/
def find_checkout_root (is_checkout_root : FsPath → Bool) :
    List FsPath → Option FsPath
  | [] => none
  | a :: rest =>
    if is_checkout_root a then some a else find_checkout_root is_checkout_root rest

/-- `Precious::set_root`: if the cwd has a `precious.toml`, it is the
root; otherwise the first ancestor (cwd included) that is a VCS checkout
root; otherwise `CannotFindRoot`.  `has_config_file` and
`is_checkout_root` abstract the file-system probes of
`Precious::has_config_file` / `Precious::is_checkout_root` (`vcs::dirs`
is outside the core sources); `ancestors` is `cwd.ancestors()`, whose
first element is `cwd` itself. -/
def set_root (has_config_file is_checkout_root : FsPath → Bool)
    (cwd : FsPath) (ancestors : List FsPath) : Except PreciousError FsPath :=
  if has_config_file cwd then
    .ok cwd
  else
    match find_checkout_root is_checkout_root ancestors with
    | some root => .ok root
    | none => .error (.CannotFindRoot cwd)

/-- The memoization in `Precious::basepaths`: the `basepaths` field is
computed once and reused.  `compute` stands for `BasePaths::new`
(not among the core sources); the state is the cached field. -/
def get_basepaths (compute : Unit → Option (List Paths))
    (cache : Option (Option (List Paths))) :
    Option (List Paths) × Option (Option (List Paths)) :=
  match cache with
  | some bp => (bp, some bp)
  | none =>
    let bp := compute ()
    (bp, some bp)

/-- The per-filter contribution to the run-wide error collection: the
errors of a successful filter run, `[]` otherwise. -/
def filter_errors
    (run_filter : Filter → Except PreciousError (Option (List ActionError)))
    (f : Filter) : List ActionError :=
  match run_filter f with
  | .ok (some e) => e
  | _ => []

theorem foldl_append_eq (l : List String) (init : String) :
    l.foldl (fun a b => a ++ b) init = init ++ join_all l := by
  induction l generalizing init with
  | nil => simp [join_all, String.append_empty]
  | cons b t ih =>
    simp only [List.foldl_cons, join_all] at *
    rw [ih (init ++ b), ih ("" ++ b), String.empty_append, String.append_assoc]

theorem join_all_cons (a : String) (t : List String) :
    join_all (a :: t) = a ++ join_all t := by
  simp only [join_all, List.foldl_cons]
  rw [foldl_append_eq t ("" ++ a), String.empty_append]
  rfl

theorem join_all_append (s t : List String) :
    join_all (s ++ t) = join_all s ++ join_all t := by
  simp only [join_all, List.foldl_append]
  rw [foldl_append_eq t (List.foldl (fun a b => a ++ b) "" s)]
  rfl

theorem join_all_mem (l : List String) (a : String) (h : a ∈ l) :
    ∃ pre suf, join_all l = pre ++ a ++ suf := by
  obtain ⟨s, t, rfl⟩ := List.mem_iff_append.mp h
  refine ⟨join_all s, join_all t, ?_⟩
  rw [join_all_append, join_all_cons, ← String.append_assoc]

theorem mem_keys_hash_insert (m : List (FsPath × Paths)) (k v x) :
    x ∈ (hash_insert m k v).map Prod.fst ↔ x = k ∨ x ∈ m.map Prod.fst := by
  simp only [hash_insert, List.map_append, List.mem_append, List.mem_map,
    List.mem_filter]
  constructor
  · rintro (⟨kv, ⟨hkv, _⟩, rfl⟩ | h)
    · exact Or.inr ⟨kv, hkv, rfl⟩
    · obtain ⟨kv, hkv, hx⟩ := h
      simp only [List.mem_singleton] at hkv
      subst hkv
      exact Or.inl hx.symm
  · rintro (rfl | ⟨kv, hkv, rfl⟩)
    · exact Or.inr (by simp)
    · by_cases hk : kv.1 = k
      · exact Or.inr (by simp [hk])
      · exact Or.inl ⟨kv, ⟨hkv, by simpa using hk⟩, rfl⟩

theorem mem_keys_files_inner (fl : List FsPath) (p : Paths)
    (m : List (FsPath × Paths)) (x : FsPath) :
    x ∈ (fl.foldl (fun m' f => hash_insert m' f p) m).map Prod.fst ↔
      x ∈ m.map Prod.fst ∨ x ∈ fl := by
  induction fl generalizing m with
  | nil => simp
  | cons f t ih =>
    simp only [List.foldl_cons, ih, mem_keys_hash_insert, List.mem_cons]
    tauto

theorem mem_keys_files (groups : List Paths) (m : List (FsPath × Paths))
    (x : FsPath) :
    x ∈ (groups.foldl
        (fun m p => p.files.foldl (fun m' f => hash_insert m' f p) m)
        m).map Prod.fst ↔
      x ∈ m.map Prod.fst ∨ ∃ p ∈ groups, x ∈ p.files := by
  induction groups generalizing m with
  | nil => simp
  | cons p t ih =>
    simp only [List.foldl_cons, ih, mem_keys_files_inner, List.mem_cons]
    constructor
    · rintro ((h | h) | ⟨q, hq, hx⟩)
      · exact Or.inl h
      · exact Or.inr ⟨p, Or.inl rfl, h⟩
      · exact Or.inr ⟨q, Or.inr hq, hx⟩
    · rintro (h | ⟨q, (rfl | hq), hx⟩)
      · exact Or.inl (Or.inl h)
      · exact Or.inl (Or.inr hx)
      · exact Or.inr ⟨q, hq, hx⟩

theorem dirs_fold_nodup (groups : List Paths) :
    ∀ m : List (FsPath × Paths),
      (∀ kv ∈ m, kv.1 ∉ groups.map Paths.dir) →
      (groups.map Paths.dir).Nodup →
      groups.foldl (fun m p => hash_insert m p.dir p) m =
        m ++ groups.map (fun p => (p.dir, p)) := by
  induction groups with
  | nil => intro m _ _; simp
  | cons p t ih =>
    intro m hdisj hnd
    simp only [List.map_cons, List.nodup_cons] at hnd
    have hins : hash_insert m p.dir p = m ++ [(p.dir, p)] := by
      unfold hash_insert
      congr 1
      apply List.filter_eq_self.mpr
      intro kv hkv
      have := hdisj kv hkv
      simp only [List.map_cons, List.mem_cons, not_or] at this
      simpa using this.1
    simp only [List.foldl_cons, hins]
    rw [ih (m ++ [(p.dir, p)]) ?_ hnd.2]
    · simp
    · intro kv hkv
      rcases List.mem_append.mp hkv with h | h
      · have := hdisj kv h
        simp only [List.map_cons, List.mem_cons, not_or] at this
        exact this.2
      · simp only [List.mem_singleton] at h
        subst h
        exact hnd.1

theorem dirs_eq_of_nodup (groups : List Paths)
    (h : (groups.map Paths.dir).Nodup) :
    dirs groups = groups.map (fun p => (p.dir, p)) := by
  simpa using dirs_fold_nodup groups [] (by simp) h

theorem collect_errors_ok
    (run_filter : Filter → Except PreciousError (Option (List ActionError)))
    (filters : List Filter)
    (h : ∀ f ∈ filters, ∃ v, run_filter f = .ok v) :
    ∀ acc, collect_errors run_filter filters acc =
      .ok (acc ++ (filters.map (filter_errors run_filter)).flatten) := by
  induction filters with
  | nil => intro acc; simp [collect_errors]
  | cons f t ih =>
    intro acc
    obtain ⟨v, hv⟩ := h f (List.mem_cons_self f t)
    have ht : ∀ g ∈ t, ∃ v, run_filter g = .ok v := fun g hg =>
      h g (List.mem_cons_of_mem f hg)
    cases v with
    | none =>
      simp only [collect_errors, hv, ih ht]
      simp [filter_errors, hv]
    | some errs =>
      simp only [collect_errors, hv, ih ht]
      simp [filter_errors, hv, List.append_assoc]

theorem flatten_perm_of_pointwise {α β : Type} (l : List α)
    (g₁ g₂ : α → List β) (h : ∀ a ∈ l, (g₁ a).Perm (g₂ a)) :
    ((l.map g₁).flatten).Perm ((l.map g₂).flatten) := by
  induction l with
  | nil => simp
  | cons a t ih =>
    simp only [List.map_cons, List.flatten_cons]
    exact (h a (List.mem_cons_self a t)).append
      (ih fun b hb => h b (List.mem_cons_of_mem a hb))

theorem find_checkout_root_some (icr : FsPath → Bool) (ancs : List FsPath)
    (r : FsPath) (h : find_checkout_root icr ancs = some r) :
    icr r = true ∧ ∃ pre suf, ancs = pre ++ r :: suf ∧ ∀ b ∈ pre, icr b = false := by
  induction ancs with
  | nil => simp [find_checkout_root] at h
  | cons a t ih =>
    by_cases ha : icr a = true
    · simp only [find_checkout_root, ha, if_true, Option.some.injEq] at h
      subst h
      exact ⟨ha, [], t, rfl, by simp⟩
    · simp only [find_checkout_root, ha, if_false] at h
      obtain ⟨hr, pre, suf, rfl, hpre⟩ := ih h
      refine ⟨hr, a :: pre, suf, rfl, ?_⟩
      intro b hb
      rcases List.mem_cons.mp hb with rfl | hb
      · simpa using ha
      · exact hpre b hb

theorem find_checkout_root_none (icr : FsPath → Bool) (ancs : List FsPath)
    (h : ∀ a ∈ ancs, icr a = false) :
    find_checkout_root icr ancs = none := by
  induction ancs with
  | nil => rfl
  | cons a t ih =>
    have ha := h a (List.mem_cons_self a t)
    simp only [find_checkout_root, ha, if_false, Bool.false_eq_true]
    exact ih fun b hb => h b (List.mem_cons_of_mem a hb)

/-- C1: for every tidy or lint action, the final `Exit` built by
`make_exit` has status 0 if and only if the run-wide `ActionError`
collection is empty; when it is non-empty the `Exit` has status 1 and its
error report contains, for every collected `(path, filter_name, message)`
triple, that triple's rendered report line. -/
theorem make_exit_status_and_report (bullet action : String)
    (errors : List ActionError) :
    ((make_exit bullet errors action).status = 0 ↔ errors = []) ∧
    (errors ≠ [] →
      (make_exit bullet errors action).status = 1 ∧
      ∃ r, (make_exit bullet errors action).error = some r ∧
        ∀ ae ∈ errors, ∃ pre suf, r = pre ++ error_line bullet ae ++ suf) := by
  by_cases he : errors = []
  · subst he
    simp [make_exit]
  · have hne : ¬errors.isEmpty := by simpa using he
    constructor
    · simp [make_exit, hne, he]
    · intro _
      constructor
      · simp [make_exit, hne]
      · refine ⟨report_header action (if errors.length > 1 then "s" else "\x00")
          ++ join_all (errors.map (error_line bullet)), by simp [make_exit, hne], ?_⟩
        intro ae hae
        obtain ⟨pre, suf, hps⟩ :=
          join_all_mem (errors.map (error_line bullet)) (error_line bullet ae)
            (List.mem_map_of_mem (error_line bullet) hae)
        refine ⟨report_header action (if errors.length > 1 then "s" else "\x00")
          ++ pre, suf, ?_⟩
        rw [hps, ← String.append_assoc, ← String.append_assoc]

theorem make_exit_status_and_report_witness :
    (make_exit "*"
      [{ error := "boom", config_key := "commands.x", path := "p" }]
      "tidying").status = 1 :=
  ((make_exit_status_and_report "*" "tidying"
    [{ error := "boom", config_key := "commands.x", path := "p" }]).2
    (by simp)).1

/-- C2: resolving under `GitStagedWithStash` restores the unstaged
modifications bit-identically after resolution completes, whether or not
the staged-diff step succeeds; the stash-pop step executes on every exit
path of the diff step, including failure, so a failing diff is still
reported over a fully restored repository state. -/
theorem staged_with_stash_round_trip
    (diff : RepoState → Except String (Option (List Paths)))
    (r : RepoState) :
    (resolve_staged_with_stash diff r).2 = r ∧
    (resolve_staged_with_stash diff r).2.unstaged = r.unstaged ∧
    (∀ e, diff (stash_unstaged r).1 = .error e →
      (resolve_staged_with_stash diff r).1 = .error e ∧
      (resolve_staged_with_stash diff r).2 = r) := by
  refine ⟨rfl, rfl, ?_⟩
  intro e he
  exact ⟨by simp [resolve_staged_with_stash, he], rfl⟩

theorem staged_with_stash_round_trip_witness :
    (resolve_staged_with_stash (fun _ => .error "diff failed")
      { staged := [("a", "1")], unstaged := [("b", "2")] }).2 =
      { staged := [("a", "1")], unstaged := [("b", "2")] } ∧
    (resolve_staged_with_stash (fun _ => .error "diff failed")
      { staged := [("a", "1")], unstaged := [("b", "2")] }).1 =
      .error "diff failed" := by
  have h := staged_with_stash_round_trip (fun _ => .error "diff failed")
    { staged := [("a", "1")], unstaged := [("b", "2")] }
  exact ⟨h.1, (h.2.2 "diff failed" rfl).1⟩

/-- C3: per-path errors produced by one filter never abort the execution
of subsequent filters: when every filter run returns (rather than
propagating a configuration/environment error), the run reaches
`make_exit` with the concatenation, in filter order, of every filter's
error contribution — each later filter's contribution is present
regardless of the errors of earlier ones. -/
theorem filter_errors_never_abort (bullet action : String)
    (filters : List Filter) (groups : List Paths)
    (run_filter : Filter → Except PreciousError (Option (List ActionError)))
    (hne : filters ≠ [])
    (hok : ∀ f ∈ filters, ∃ v, run_filter f = .ok v) :
    run_all_filters bullet action filters (some groups) run_filter =
      .ok (make_exit bullet
        ((filters.map (filter_errors run_filter)).flatten) action) := by
  have hE : ¬filters.isEmpty := by simpa using hne
  simp [run_all_filters, hE, collect_errors_ok run_filter filters hok []]

def sample_filter : Filter :=
  { name := "t", config_key := "commands.t", run_mode := .Dirs }

def const_ok_filter_run :
    Filter → Except PreciousError (Option (List ActionError)) :=
  fun _ => .ok none

theorem filter_errors_never_abort_witness :
    run_all_filters "*" "tidying" [sample_filter] (some [])
      const_ok_filter_run =
      .ok (make_exit "*"
        (([sample_filter].map (filter_errors const_ok_filter_run)).flatten)
        "tidying") :=
  filter_errors_never_abort "*" "tidying" [sample_filter] []
    const_ok_filter_run (by simp)
    (fun f _ => ⟨none, rfl⟩)

/-- C4: partition law — for a resolution whose groups have pairwise
distinct directories (the stated resolution invariant), the union of
files across all `Dirs`-mode invocation-map entries equals the union of
invoked paths across all `Files`-mode invocation-map entries: neither
grouping adds or drops files. -/
theorem dirs_files_partition_law (groups : List Paths)
    (h : (groups.map Paths.dir).Nodup) :
    (((path_map .Dirs groups).map (fun kv => kv.2.files)).flatten).toFinset =
      ((path_map .Files groups).map Prod.fst).toFinset := by
  ext x
  simp only [List.mem_toFinset]
  have hd : path_map .Dirs groups = groups.map (fun p => (p.dir, p)) :=
    dirs_eq_of_nodup groups h
  rw [hd]
  have hfiles : x ∈ (path_map .Files groups).map Prod.fst ↔
      x ∈ ([] : List (FsPath × Paths)).map Prod.fst ∨
        ∃ p ∈ groups, x ∈ p.files :=
    mem_keys_files groups [] x
  simp only [List.map_nil, List.not_mem_nil, false_or] at hfiles
  rw [hfiles]
  simp only [List.map_map, List.mem_flatten, List.mem_map]
  constructor
  · rintro ⟨l, ⟨p, hp, rfl⟩, hx⟩
    exact ⟨p, hp, hx⟩
  · rintro ⟨p, hp, hx⟩
    exact ⟨p.files, ⟨p, hp, rfl⟩, hx⟩

theorem dirs_files_partition_law_witness :
    ((((path_map .Dirs [{ dir := "d1", files := ["a", "b"] },
        { dir := "d2", files := ["c"] }]).map
          (fun kv => kv.2.files)).flatten).toFinset =
      ((path_map .Files [{ dir := "d1", files := ["a", "b"] },
        { dir := "d2", files := ["c"] }]).map Prod.fst).toFinset) :=
  dirs_files_partition_law
    [{ dir := "d1", files := ["a", "b"] }, { dir := "d2", files := ["c"] }]
    (by decide)

/-- C5: a `Root` run-mode filter gets an invocation map with exactly one
entry (every resolved file collapsed into one synthetic group keyed
`"."`) when resolution returned at least one file; when resolution
returns `none`, the run stops with the no-files exit before building any
invocation map, so zero entries are ever produced (the result does not
depend on the filter runner at all). -/
theorem root_run_mode_entries (bullet action : String)
    (groups : List Paths) (filters : List Filter)
    (run_filter run_filter' :
      Filter → Except PreciousError (Option (List ActionError)))
    (_hfiles : (groups.map Paths.files).flatten ≠ [])
    (hfs : filters ≠ []) :
    (path_map .Root groups).length = 1 ∧
    path_map .Root groups =
      [(".", { dir := ".", files := (groups.map Paths.files).flatten })] ∧
    run_all_filters bullet action filters none run_filter =
      .ok no_files_exit ∧
    run_all_filters bullet action filters none run_filter =
      run_all_filters bullet action filters none run_filter' := by
  have hE : ¬filters.isEmpty := by simpa using hfs
  refine ⟨rfl, rfl, ?_, ?_⟩ <;> simp [run_all_filters, hE]

theorem root_run_mode_entries_witness :
    (path_map .Root [{ dir := "d", files := ["a"] }]).length = 1 :=
  (root_run_mode_entries "*" "linting" [{ dir := "d", files := ["a"] }]
    [sample_filter] const_ok_filter_run const_ok_filter_run
    (by decide) (by simp)).1

/-- C6: determinism under concurrency — for a fixed filter list and a
fixed resolution, running every filter's invocation map under any two
completion schedules (each a permutation of that filter's `path_map`,
covering worker pools of size 1 and any size N > 1) collects run-wide
error lists that are permutations of each other: content-equal
aggregated error sets. -/
theorem run_determinism_under_schedules (filters : List Filter)
    (groups : List Paths)
    (runner : Filter → FsPath → Paths → Option ActionError)
    (sched₁ sched₂ : Filter → List (FsPath × Paths))
    (h₁ : ∀ f ∈ filters, (sched₁ f).Perm (path_map f.run_mode groups))
    (h₂ : ∀ f ∈ filters, (sched₂ f).Perm (path_map f.run_mode groups)) :
    collect_errors
        (fun f => .ok (run_parallel_schedule (runner f) (sched₁ f)))
        filters [] =
      .ok ((filters.map (fun f =>
        (sched₁ f).filterMap (fun kv => runner f kv.1 kv.2))).flatten) ∧
    collect_errors
        (fun f => .ok (run_parallel_schedule (runner f) (sched₂ f)))
        filters [] =
      .ok ((filters.map (fun f =>
        (sched₂ f).filterMap (fun kv => runner f kv.1 kv.2))).flatten) ∧
    ((filters.map (fun f =>
        (sched₁ f).filterMap (fun kv => runner f kv.1 kv.2))).flatten).Perm
      ((filters.map (fun f =>
        (sched₂ f).filterMap (fun kv => runner f kv.1 kv.2))).flatten) := by
  have hcontrib : ∀ (sched : Filter → List (FsPath × Paths)) (f : Filter),
      filter_errors (fun g => .ok (run_parallel_schedule (runner g) (sched g)))
        f = (sched f).filterMap (fun kv => runner f kv.1 kv.2) := by
    intro sched f
    unfold filter_errors run_parallel_schedule
    by_cases hemp :
        ((sched f).filterMap (fun kv => runner f kv.1 kv.2)).isEmpty
    · simp only [hemp, if_true]
      simpa using (List.isEmpty_iff.mp hemp).symm
    · simp [hemp]
  refine ⟨?_, ?_, ?_⟩
  · rw [collect_errors_ok _ filters (fun f _ => ⟨_, rfl⟩) []]
    simp only [List.nil_append]
    congr 1
    exact congrArg List.flatten (List.map_congr_left fun f _ => hcontrib sched₁ f)
  · rw [collect_errors_ok _ filters (fun f _ => ⟨_, rfl⟩) []]
    simp only [List.nil_append]
    congr 1
    exact congrArg List.flatten (List.map_congr_left fun f _ => hcontrib sched₂ f)
  · exact flatten_perm_of_pointwise filters _ _ fun f hf =>
      ((h₁ f hf).trans (h₂ f hf).symm).filterMap _

def sample_runner : Filter → FsPath → Paths → Option ActionError :=
  fun f p _ =>
    some { error := "boom", config_key := f.config_key, path := p }

def sample_groups : List Paths :=
  [{ dir := "d", files := ["a", "b"] }]

theorem run_determinism_under_schedules_witness :
    (([sample_filter].map (fun f =>
        (path_map f.run_mode sample_groups).filterMap
          (fun kv => sample_runner f kv.1 kv.2))).flatten).Perm
      (([sample_filter].map (fun f =>
        ((path_map f.run_mode sample_groups).reverse).filterMap
          (fun kv => sample_runner f kv.1 kv.2))).flatten) :=
  (run_determinism_under_schedules [sample_filter] sample_groups
    sample_runner
    (fun f => path_map f.run_mode sample_groups)
    (fun f => (path_map f.run_mode sample_groups).reverse)
    (fun _ _ => List.Perm.refl _)
    (fun _ _ => List.reverse_perm _)).2.2

/-- C7: if the configuration declares zero filters for the requested
action, the run fails with the fatal `NoFilters` configuration error and
overall status 1, for every resolution and every filter runner — so
before any path resolution result is consulted and before any filter
execution is attempted. -/
theorem no_filters_fatal (bullet action : String)
    (resolution : Option (List Paths))
    (run_filter :
      Filter → Except PreciousError (Option (List ActionError))) :
    run_all_filters bullet action [] resolution run_filter =
      .error (.NoFilters action) ∧
    run_status (run_all_filters bullet action [] resolution run_filter) = 1 := by
  simp [run_all_filters, run_status]

/-- C8: when path resolution returns `none`, the action succeeds with
the exit of status 0 and message "No files found", and the result is
independent of the filter runner — zero filter invocations are
performed; the `basepaths` field is computed once and memoized, so a
second lookup returns the first result without recomputing (independent
of the second compute function). -/
theorem no_files_found_success (bullet action : String)
    (filters : List Filter)
    (run_filter run_filter' :
      Filter → Except PreciousError (Option (List ActionError)))
    (compute compute' : Unit → Option (List Paths))
    (hne : filters ≠ []) :
    run_all_filters bullet action filters none run_filter =
      .ok no_files_exit ∧
    no_files_exit.status = 0 ∧
    no_files_exit.message = some "No files found" ∧
    run_all_filters bullet action filters none run_filter =
      run_all_filters bullet action filters none run_filter' ∧
    (get_basepaths compute' (get_basepaths compute none).2).1 =
      (get_basepaths compute none).1 := by
  have hE : ¬filters.isEmpty := by simpa using hne
  refine ⟨?_, rfl, rfl, ?_, rfl⟩ <;> simp [run_all_filters, hE]

theorem no_files_found_success_witness :
    run_all_filters "*" "linting" [sample_filter] none
      const_ok_filter_run = .ok no_files_exit :=
  (no_files_found_success "*" "linting" [sample_filter]
    const_ok_filter_run const_ok_filter_run
    (fun _ => none) (fun _ => none) (by simp)).1

/-- The lint filter of Scenario A: `run_mode = Files`. -/
def scenario_a_filter : Filter :=
  { name := "some-linter", config_key := "commands.some-linter",
    run_mode := .Files }

/-- The resolution of Scenario A: one group holding `a.txt` and `b.txt`. -/
def scenario_a_groups : List Paths :=
  [{ dir := ".", files := ["a.txt", "b.txt"] }]

/-- The external tool of Scenario A: exit code 0 on `a.txt`, 1 on
`b.txt`. -/
def scenario_a_exit_code (p : FsPath) : Int :=
  if p = "a.txt" then 0 else 1

/-- The lint operation of Scenario A: `ok_exit_codes = [0]`,
`lint_failure_exit_codes = [1]` over the tool above. -/
def scenario_a_lint (p : FsPath) (_ : List FsPath) :
    Except String (Option LintOutcome) :=
  lint_from_exit_code [0] [1] (scenario_a_exit_code p) none none

/-- The single report entry of Scenario A, for `b.txt`. -/
def scenario_a_error : ActionError :=
  { error := "linting failed", config_key := "commands.some-linter",
    path := "b.txt" }

/-- C9: Scenario A — one lint filter with `run_mode = Files`,
`ok_exit_codes = [0]`, `lint_failure_exit_codes = [1]` over files
`{a.txt, b.txt}` where the tool exits 0 on `a.txt` and 1 on `b.txt`:
`a.txt` passes (no error), `b.txt` fails, the collected errors are
exactly the one entry for `b.txt`, and the final exit has status 1. -/
theorem scenario_a_lint_run (bullet : String) :
    linter_runner scenario_a_filter scenario_a_lint "a.txt"
      { dir := ".", files := ["a.txt", "b.txt"] } = none ∧
    linter_runner scenario_a_filter scenario_a_lint "b.txt"
      { dir := ".", files := ["a.txt", "b.txt"] } = some scenario_a_error ∧
    run_one_linter scenario_a_filter scenario_a_groups scenario_a_lint =
      some [scenario_a_error] ∧
    run_all_filters bullet "linting" [scenario_a_filter]
        (some scenario_a_groups)
        (fun f => .ok (run_one_linter f scenario_a_groups scenario_a_lint)) =
      .ok (make_exit bullet [scenario_a_error] "linting") ∧
    (make_exit bullet [scenario_a_error] "linting").status = 1 := by
  have h3 : run_one_linter scenario_a_filter scenario_a_groups
      scenario_a_lint = some [scenario_a_error] := by decide
  refine ⟨by decide, by decide, h3, ?_, by simp [make_exit, scenario_a_error]⟩
  have hok : ∀ f ∈ [scenario_a_filter], ∃ v,
      (fun f => Except.ok (ε := PreciousError)
        (run_one_linter f scenario_a_groups scenario_a_lint)) f = .ok v :=
    fun f _ => ⟨_, rfl⟩
  rw [filter_errors_never_abort bullet "linting" [scenario_a_filter]
    scenario_a_groups _ (by simp) hok]
  simp [filter_errors, h3]

/-- C10: project-root determination in `set_root` — a `precious.toml` in
the cwd makes the cwd the root without consulting the VCS probe at all;
otherwise the root is the first ancestor (cwd included, in ancestor
order) that is a VCS checkout root, every earlier ancestor not being
one; if neither exists, the result is the fatal `CannotFindRoot` error. -/
theorem set_root_resolution (hc icr icr' : FsPath → Bool) (cwd : FsPath)
    (ancs : List FsPath) :
    (hc cwd = true →
      set_root hc icr cwd ancs = .ok cwd ∧
      set_root hc icr cwd ancs = set_root hc icr' cwd ancs) ∧
    (hc cwd = false → ∀ r, set_root hc icr cwd ancs = .ok r →
      icr r = true ∧
      ∃ pre suf, ancs = pre ++ r :: suf ∧ ∀ b ∈ pre, icr b = false) ∧
    (hc cwd = false → (∀ a ∈ ancs, icr a = false) →
      set_root hc icr cwd ancs = .error (.CannotFindRoot cwd)) := by
  refine ⟨?_, ?_, ?_⟩
  · intro h
    constructor <;> simp [set_root, h]
  · intro h r hr
    simp only [set_root, h, Bool.false_eq_true, if_false] at hr
    cases hfind : find_checkout_root icr ancs with
    | none => simp [hfind] at hr
    | some a =>
      simp only [hfind, Except.ok.injEq] at hr
      subst hr
      exact find_checkout_root_some icr ancs _ hfind
  · intro h hall
    simp [set_root, h, find_checkout_root_none icr ancs hall]

theorem set_root_resolution_witness :
    set_root (fun _ => false) (fun _ => false) "/w" ["/w", "/"] =
      .error (.CannotFindRoot "/w") :=
  (set_root_resolution (fun _ => false) (fun _ => false) (fun _ => false)
    "/w" ["/w", "/"]).2.2 rfl (by simp)

end Precious
